import Mathlib

/-!
Verification of the moderation bot in `src/main.py`.

The Python program is shallowly embedded: strings are lists of characters,
the two compiled-regex shapes of `compile_patterns` and the fixed `LINK_REGEX`
are modelled as executable leftmost-search functions, the global `data` dict,
the `data.json` file and the module-level `DEFAULTS` dict (whose list values
are shared Python objects) are modelled as an explicit `World` state with a
small heap of list objects, and every handler that matters to the claims is a
pure state-passing function.  Character classes follow the ASCII fragment of
Python's `re` module (`\w` is `[A-Za-z0-9_]`, lowercasing maps `A`–`Z`).
-/

namespace PyMod

/-- Python strings modelled as lists of characters (code points). -/
abbrev Str := List Char

/-- Python `str.lower()` / the effect of `re.IGNORECASE`, ASCII fragment:
each character is lowercased independently. -/
def lowerL (s : Str) : Str := s.map Char.toLower

/-- The regex word-character class `\w` (ASCII fragment): `[A-Za-z0-9_]`. -/
def isWordChar (c : Char) : Bool := c.isAlphanum || c == '_'

/-- Word-character test on an optional character; a position outside the
string counts as a non-word character (as in the regex `\b` rule). -/
def optWord : Option Char → Bool
  | none => false
  | some c => isWordChar c

/-- Case-insensitive literal match of `p` against the start of `t`
(the way `re.escape(w)` with `re.IGNORECASE` matches at one position). -/
def ciPref : Str → Str → Bool
  | [], _ => true
  | _ :: _, [] => false
  | p :: ps, c :: cs => (p.toLower == c.toLower) && ciPref ps cs

/-- One compiled banned-word pattern of `compile_patterns` (main.py 77–87):
a literal word plus whether it was wrapped in `\b ... \b`. -/
structure BPattern where
  word : Str
  boundary : Bool
deriving DecidableEq

/-- Attempt to match a compiled pattern at the current position of the text.
`prev` is the character immediately before the position (`none` at the start
of the string), `t` the remaining text.  On success returns `m.group(0)`,
the matched slice of the original text. -/
def matchHere (p : BPattern) (prev : Option Char) (t : Str) : Option Str :=
  if ciPref p.word t then
    let m := t.take p.word.length
    if p.boundary then
      if (optWord prev != optWord t.head?) &&
          (optWord m.getLast? != optWord (t.drop p.word.length).head?) then
        some m
      else none
    else some m
  else none

/-- Leftmost search of one compiled pattern (`pattern.search(text)`),
walking the text and remembering the previous character for `\b`. -/
def patSearchAux (p : BPattern) : Option Char → Str → Option Str
  | prev, [] => matchHere p prev []
  | prev, c :: cs =>
    match matchHere p prev (c :: cs) with
    | some m => some m
    | none => patSearchAux p (some c) cs

/-- Python `str.strip()` (ASCII whitespace fragment). -/
def pyStrip (s : Str) : Str :=
  ((s.dropWhile Char.isWhitespace).reverse.dropWhile Char.isWhitespace).reverse

/-- main.py 77–87, `compile_patterns`: strip each word, skip empty ones,
compile a plain case-insensitive literal when the word has an internal
space, otherwise a `\b`-delimited case-insensitive literal. -/
def compile_patterns (words : List Str) : List BPattern :=
  words.filterMap fun w0 =>
    let w := pyStrip w0
    if w.isEmpty then none
    else if w.contains ' ' then some ⟨w, false⟩
    else some ⟨w, true⟩

/-- First pattern in configuration order whose search hits (main.py 92–95). -/
def firstHit : List BPattern → Str → Option Str
  | [], _ => none
  | p :: ps, t =>
    match patSearchAux p none t with
    | some m => some m
    | none => firstHit ps t

/-- main.py 89–96, `contains_banned`. -/
def contains_banned (text : Str) (patterns : List BPattern) : Bool × Str :=
  if text.isEmpty then (false, [])
  else
    match firstHit patterns text with
    | some m => (true, m)
    | none => (false, [])

/-- Case-insensitive literal for one `LINK_REGEX` alternative: consume `lit`
from the front of `t` and return the consumed original-text slice. -/
def tryLit (lit : Str) (t : Str) : Option Str :=
  if ciPref lit t then some (t.take lit.length) else none

/-- The class `[a-z]` under `re.IGNORECASE` (ASCII letters). -/
def isAzLetter (c : Char) : Bool := c.isAlpha

/-- Tail `(?:/|\b)` of the last `LINK_REGEX` alternative, checked after the
dot and the letters in `consumed` (whose last character is a letter): the
`/` branch is tried first and consumes, otherwise `\b` must hold. -/
def dotExtTail (consumed : Str) (rest : Str) : Option Str :=
  match rest with
  | '/' :: _ => some (consumed ++ ['/'])
  | c :: _ => if isWordChar c then none else some consumed
  | [] => some consumed

/-- The alternative `\.[a-z]{2,3}(?:/|\b)` at the current position
(greedy: three letters are tried before two). -/
def dotExtHere (t : Str) : Option Str :=
  match t with
  | '.' :: c1 :: c2 :: c3 :: rest =>
    if isAzLetter c1 && isAzLetter c2 then
      if isAzLetter c3 then
        match dotExtTail ['.', c1, c2, c3] rest with
        | some m => some m
        | none => dotExtTail ['.', c1, c2] (c3 :: rest)
      else dotExtTail ['.', c1, c2] (c3 :: rest)
    else none
  | '.' :: c1 :: c2 :: rest =>
    if isAzLetter c1 && isAzLetter c2 then dotExtTail ['.', c1, c2] rest else none
  | _ => none

/-- One attempt of `LINK_REGEX` (main.py 49) at the current position:
the alternatives in the pattern's order, with `https?://` expanded into its
greedy order and the `\b` of `\bwww\.` checked against `prev`. -/
def linkHere (prev : Option Char) (t : Str) : Option Str :=
  tryLit ("https://".data) t <|> tryLit ("http://".data) t <|>
    tryLit ("t.me/".data) t <|> tryLit ("telegram.me/".data) t <|>
    (if optWord prev then none else tryLit ("www.".data) t) <|> dotExtHere t

/-- Leftmost search of `LINK_REGEX` over the text. -/
def linkSearchAux : Option Char → Str → Option Str
  | prev, [] => linkHere prev []
  | prev, c :: cs =>
    match linkHere prev (c :: cs) with
    | some m => some m
    | none => linkSearchAux (some c) cs

/-- Python substring test `needle in hay` (exact, case-sensitive). -/
def startsWithL : Str → Str → Bool
  | [], _ => true
  | _ :: _, [] => false
  | a :: as, b :: bs => (a == b) && startsWithL as bs

/-- Python `needle in hay` membership of strings. -/
def isSub (needle : Str) : Str → Bool
  | [] => needle.isEmpty
  | c :: cs => startsWithL needle (c :: cs) || isSub needle cs

/-- main.py 98–107, `contains_link`: find a link with `LINK_REGEX`; if any
allowlist entry occurs case-insensitively anywhere in the whole text the
match is suppressed, otherwise the matched slice is reported. -/
def contains_link (text : Str) (allowed : List Str) : Bool × Str :=
  if text.isEmpty then (false, [])
  else
    match linkSearchAux none text with
    | none => (false, [])
    | some m =>
      if allowed.any (fun domain => isSub (lowerL domain) (lowerL text)) then (false, [])
      else (true, m)

/-- main.py 29: the fixed owner identifier. -/
def OWNER_ID : Int := 7322925570

/-- Outcome of the platform call `bot.get_chat_member(...)` followed by
`member.is_chat_admin()`: a boolean result, or a raised error of any kind. -/
abbrev AdminQuery := Except Unit Bool

/-- main.py 109–116, `is_user_admin`: owner short-circuits before the
platform query; a raised error from the query is swallowed and read as
"not an admin".  The total `Bool` return type records that no failure is
surfaced to the caller. -/
def is_user_admin (chat_id : Int) (user_id : Int) (query : AdminQuery) : Bool :=
  if user_id == OWNER_ID then true
  else
    match chat_id, query with
    | _, Except.ok b => b
    | _, Except.error _ => false

/-- Address of a Python list object. -/
abbrev Addr := Nat

/-- The heap of mutable Python list objects reachable from the settings
dicts: string lists (banned words, allowlist entries) and integer lists
(bot-admin user ids). -/
structure Heap where
  strMem : Addr → List Str
  intMem : Addr → List Int

/-- A chat-settings dict as held in the global `data` dict: scalar entries
hold immutable values, the three list entries hold references to heap
objects (Python dict values are references). -/
structure SettingsRef where
  banned_words : Addr
  allowed_links : Addr
  link_protection : Bool
  action_words : Str
  mute_seconds_words : Int
  action_links : Str
  mute_seconds_links : Int
  enabled : Bool
  mode : Str
  bot_admins : Addr
deriving DecidableEq

/-- The fully dereferenced value of a settings dict — what `json.dump`
serializes and what every read of a list entry observes. -/
structure SettingsVal where
  banned_words : List Str
  allowed_links : List Str
  link_protection : Bool
  action_words : Str
  mute_seconds_words : Int
  action_links : Str
  mute_seconds_links : Int
  enabled : Bool
  mode : Str
  bot_admins : List Int
deriving DecidableEq

/-- Read a settings dict through the heap. -/
def deref (h : Heap) (r : SettingsRef) : SettingsVal :=
  { banned_words := h.strMem r.banned_words
    allowed_links := h.strMem r.allowed_links
    link_protection := r.link_protection
    action_words := r.action_words
    mute_seconds_words := r.mute_seconds_words
    action_links := r.action_links
    mute_seconds_links := r.mute_seconds_links
    enabled := r.enabled
    mode := r.mode
    bot_admins := h.intMem r.bot_admins }

/-- main.py 36–47, the module-level `DEFAULTS` dict.  Its three list values
are the three list objects allocated at module load; they live at heap
addresses `0` and `1` of `strMem` and `0` of `intMem`. -/
def DEFAULTS : SettingsRef :=
  { banned_words := 0
    allowed_links := 1
    link_protection := true
    action_words := "mute".data
    mute_seconds_words := 600
    action_links := "mute".data
    mute_seconds_links := 600
    enabled := true
    mode := "admins".data
    bot_admins := 0 }

/-- Python `dict.copy()` on a settings dict: a shallow copy.  The field
values — including the three list addresses — are copied unchanged; the
referenced list objects are not duplicated.  A dict is modelled as an
immutable record of its field values, so the shallow copy is the record
itself. -/
def dictCopy (r : SettingsRef) : SettingsRef := r

/-- In-place `list.append` on a string-list object, through its reference
(what Python's `settings["banned_words"].append(word)` does). -/
def heapAppendStr (h : Heap) (a : Addr) (x : Str) : Heap :=
  { h with strMem := fun b => if b = a then h.strMem a ++ [x] else h.strMem b }

/-- The interpreter state the handlers touch: the heap of list objects, the
global `data` dict (insertion-ordered), and the contents of `data.json`
(`none` when the file is absent). -/
structure World where
  heap : Heap
  store : List (Str × SettingsRef)
  file : Option (List (Str × SettingsVal))

/-- Python dict lookup on `data`. -/
def lookupStore : List (Str × SettingsRef) → Str → Option SettingsRef
  | [], _ => none
  | (k, v) :: rest, cid => if k == cid then some v else lookupStore rest cid

/-- What `json.dump(data, f)` writes: the store with every settings dict
dereferenced through the heap. -/
def serialize (h : Heap) (st : List (Str × SettingsRef)) : List (Str × SettingsVal) :=
  st.map fun e => (e.1, deref h e.2)

/-- main.py 64–66, `save_data`: overwrite the file with the serialized
store, unconditionally. -/
def save_data (w : World) : World :=
  { w with file := some (serialize w.heap w.store) }

/-- main.py 55–62, `load_data`.  `fileIsThere` is the `os.path.exists`
test; `parsed` is the outcome of `json.load` (an error means the exception
branch).  Both failure cases silently fall back to the empty mapping; the
total return type records that no error escapes. -/
def load_data (fileIsThere : Bool)
    (parsed : Except Unit (List (Str × SettingsVal))) : List (Str × SettingsVal) :=
  if !fileIsThere then []
  else
    match parsed with
    | Except.ok d => d
    | Except.error _ => []

/-- main.py 70–74, `ensure_chat_settings`: look the chat up in `data`;
on a miss, insert a shallow copy of `DEFAULTS`, persist with `save_data`,
and return the inserted dict; on a hit, return the existing dict with no
other effect. -/
def ensure_chat_settings (w : World) (chat_id : Str) : World × SettingsRef :=
  match lookupStore w.store chat_id with
  | some r => (w, r)
  | none =>
    let r := dictCopy DEFAULTS
    let w2 := save_data { w with store := w.store ++ [(chat_id, r)] }
    (w2, r)

/-- main.py 118–120, `is_bot_admin`: resolves the chat's settings with
`ensure_chat_settings` (inserting defaults on a miss), then tests
membership in the bot-admin list or equality with the owner. -/
def is_bot_admin (w : World) (chat_id : Str) (user_id : Int) : World × Bool :=
  let p := ensure_chat_settings w chat_id
  (p.1, (p.1.heap.intMem p.2.bot_admins).contains user_id || user_id == OWNER_ID)

/-- The visible outcome of the `/admin` command handler. -/
inductive PanelReply where
  | rejected
  | panel
deriving DecidableEq

/-- main.py 135–140, `show_admin_panel`: gate on `is_bot_admin`, replying
with the rejection text or with the panel keyboard. -/
def show_admin_panel (w : World) (chat_id : Str) (user_id : Int) : World × PanelReply :=
  let p := is_bot_admin w chat_id user_id
  if p.2 then (p.1, PanelReply.panel) else (p.1, PanelReply.rejected)

/-- Python `a or b` where `a` is an optional string: `None` and the empty
string are falsy and fall through to `b`. -/
def pyOrStr (a : Option Str) (b : Str) : Str :=
  match a with
  | none => b
  | some s => if s.isEmpty then b else s

/-- main.py 183: `message.text or message.caption or ""`. -/
def textOf (text caption : Option Str) : Str := pyOrStr text (pyOrStr caption [])

/-- What `mod_message` decides to do about a message: nothing, or delete it
and apply `action` with `mute_seconds` announcing `reason`. -/
inductive Decision where
  | skip
  | act (action : Str) (mute_seconds : Int) (reason : Str)
deriving DecidableEq

/-- The decision core of `mod_message` (main.py 168–210): the chat-type,
`enabled` and mode gates, the two matchers, and the word-over-link action
selection.  `senderIsAdmin` is the outcome of the `is_user_admin` call;
`s` is the chat's settings read through the heap. -/
def mod_decide (chatType : Str) (senderIsAdmin : Bool) (s : SettingsVal)
    (text caption : Option Str) : Decision :=
  if !(chatType == "group".data || chatType == "supergroup".data) then Decision.skip
  else if !s.enabled then Decision.skip
  else if s.mode == "admins".data && senderIsAdmin then Decision.skip
  else
    let t := textOf text caption
    let patterns := compile_patterns s.banned_words
    let is_banned := (contains_banned t patterns).1
    let found_link := if s.link_protection then (contains_link t s.allowed_links).1 else false
    if !is_banned && !found_link then Decision.skip
    else if is_banned then
      Decision.act s.action_words s.mute_seconds_words ("запрещённое слово".data)
    else if found_link then
      Decision.act s.action_links s.mute_seconds_links ("ссылку".data)
    else Decision.skip

/-- main.py 212–213: the human-readable duration text of the mute
notification (`//` is Python floor division). -/
def minutes_text (mute_seconds : Int) : Str :=
  let minutes := Int.fdiv mute_seconds 60
  if minutes ≥ 1 then (toString minutes).data ++ (" минут").data
  else (toString mute_seconds).data ++ (" секунд").data

/-- State right after module load with no `data.json` present: the three
`DEFAULTS` list objects are allocated empty, `data = load_data()` is the
empty dict. -/
def world0 : World :=
  { heap := { strMem := fun _ => [], intMem := fun _ => [] }
    store := []
    file := none }

/-- The dereferenced default settings the specification enumerates. -/
def defaultVal : SettingsVal :=
  { banned_words := []
    allowed_links := []
    link_protection := true
    action_words := "mute".data
    mute_seconds_words := 600
    action_links := "mute".data
    mute_seconds_links := 600
    enabled := true
    mode := "admins".data
    bot_admins := [] }

/-- A state holding one chat `"c"` with untouched default settings (used to
instantiate theorems about chats that already have an entry). -/
def worldC : World :=
  { heap := { strMem := fun _ => [], intMem := fun _ => [] }
    store := [("c".data, DEFAULTS)]
    file := none }

/-- A concrete settings value with one banned word and distinct link-side
action and duration (used to instantiate the action-selection theorem). -/
def sC2 : SettingsVal :=
  { defaultVal with
    banned_words := ["ban".data]
    action_links := "ban".data
    mute_seconds_links := 30 }

/-- The previous character seen after walking `pre` starting from `prev`
(drives the `\b` bookkeeping of the search loop). -/
def lastOr (prev : Option Char) : Str → Option Char
  | [] => prev
  | c :: cs => lastOr (some c) cs

/-! ### Helper lemmas -/

theorem char_toNat_ofNat_valid {n : Nat} (h1 : n < 55296) : (Char.ofNat n).toNat = n := by
  rw [Char.ofNat, dif_pos (Or.inl h1)]
  rfl

theorem char_isUpper_iff (c : Char) : c.isUpper = true ↔ 65 ≤ c.toNat ∧ c.toNat ≤ 90 := by
  simp [Char.isUpper, UInt32.le_def, BitVec.le_def, Char.toNat, UInt32.toNat]

theorem char_isLower_iff (c : Char) : c.isLower = true ↔ 97 ≤ c.toNat ∧ c.toNat ≤ 122 := by
  simp [Char.isLower, UInt32.le_def, BitVec.le_def, Char.toNat, UInt32.toNat]

theorem isWordChar_toLower (c : Char) : isWordChar c.toLower = isWordChar c := by
  unfold isWordChar Char.toLower
  by_cases h : c.toNat ≥ 65 ∧ c.toNat ≤ 90
  · rw [if_pos h]
    have hval : (Char.ofNat (c.toNat + 32)).toNat = c.toNat + 32 :=
      char_toNat_ofNat_valid (by omega)
    have h1 : (Char.ofNat (c.toNat + 32)).isLower = true := (char_isLower_iff _).mpr (by omega)
    have h2 : c.isUpper = true := (char_isUpper_iff _).mpr (by omega)
    simp [Char.isAlphanum, Char.isAlpha, h1, h2]
  · rw [if_neg h]

theorem wordChar_not_whitespace (c : Char) (h : isWordChar c = true) :
    c.isWhitespace = false := by
  cases hw : c.isWhitespace with
  | false => rfl
  | true =>
    have hc : ((c = ' ' ∨ c = '\t') ∨ c = '\x0d') ∨ c = '\n' := by
      simpa [Char.isWhitespace, Bool.or_eq_true, decide_eq_true_eq] using hw
    rcases hc with ((rfl | rfl) | rfl) | rfl <;> exact absurd h (by decide)

theorem dropWhile_ws_eq_self (l : Str) (h : ∀ c ∈ l, c.isWhitespace = false) :
    l.dropWhile Char.isWhitespace = l := by
  cases l with
  | nil => rfl
  | cons a as =>
    rw [List.dropWhile_cons, h a (by simp)]
    simp

theorem pyStrip_eq_self (l : Str) (h : ∀ c ∈ l, c.isWhitespace = false) : pyStrip l = l := by
  unfold pyStrip
  rw [dropWhile_ws_eq_self l h,
    dropWhile_ws_eq_self l.reverse (fun c hc => h c (List.mem_reverse.mp hc)),
    List.reverse_reverse]

theorem fdiv_sixty_ge_one {s : Int} : 1 ≤ Int.fdiv s 60 ↔ 60 ≤ s := by
  rw [Int.fdiv_eq_ediv s (by omega : (0 : Int) ≤ 60),
    Int.le_ediv_iff_mul_le (by omega : (0 : Int) < 60)]
  omega

theorem isSub_nil : ∀ t : Str, isSub [] t = true
  | [] => rfl
  | _ :: _ => rfl

/-! ### C7 -/

/-- C7: for every configured mute duration, the notification duration text
is rendered in minutes when the duration is at least 60 seconds (600
seconds renders as "10 минут"), and in seconds when it is under 60. -/
theorem mute_duration_rendering (s : Int) :
    minutes_text 600 = ("10 минут").data ∧
    (60 ≤ s → minutes_text s = (toString (Int.fdiv s 60)).data ++ (" минут").data) ∧
    (s < 60 → minutes_text s = (toString s).data ++ (" секунд").data) := by
  refine ⟨by decide, fun h => ?_, fun h => ?_⟩
  · unfold minutes_text
    rw [if_pos (fdiv_sixty_ge_one.mpr h)]
  · unfold minutes_text
    rw [if_neg (by rw [ge_iff_le, fdiv_sixty_ge_one]; omega)]

/-- Witness for C7 at 600 seconds (minutes) and 30 seconds (seconds). -/
theorem mute_duration_rendering_witness :
    ((60 : Int) ≤ 600 ∧
      minutes_text 600 = (toString (Int.fdiv (600 : Int) 60)).data ++ (" минут").data) ∧
    ((30 : Int) < 60 ∧ minutes_text 30 = (toString (30 : Int)).data ++ (" секунд").data) :=
  ⟨⟨by decide, (mute_duration_rendering 600).2.1 (by decide)⟩,
    ⟨by decide, (mute_duration_rendering 30).2.2 (by decide)⟩⟩

/-! ### C8 -/

/-- C8: `load_data` returns the empty mapping when the file is absent or
when parsing raises, surfacing no error (the return type is total), and
returns the parsed mapping when the file exists and parses. -/
theorem load_data_silent_fallback (parsed : Except Unit (List (Str × SettingsVal)))
    (d : List (Str × SettingsVal)) :
    load_data false parsed = [] ∧
    load_data true (Except.error ()) = [] ∧
    load_data true (Except.ok d) = d :=
  ⟨rfl, rfl, rfl⟩

/-! ### C9 -/

/-- C9: `is_user_admin` returns true for the owner whatever the platform
query would do (so the query result is never consulted), and returns false
— surfacing nothing, the return type is a total `Bool` — whenever the
platform chat-membership query raises. -/
theorem owner_true_and_query_error_swallowed (chat_id uid : Int) (q q' : AdminQuery)
    (h : uid ≠ OWNER_ID) :
    is_user_admin chat_id OWNER_ID q = true ∧
    is_user_admin chat_id OWNER_ID q = is_user_admin chat_id OWNER_ID q' ∧
    is_user_admin chat_id uid (Except.error ()) = false := by
  refine ⟨?_, ?_, ?_⟩ <;> simp [is_user_admin, h]

/-- Witness for C9 with a failing query for a non-owner user. -/
theorem owner_true_and_query_error_swallowed_witness :
    ((1 : Int) ≠ OWNER_ID) ∧
    (is_user_admin 5 OWNER_ID (Except.error ()) = true ∧
      is_user_admin 5 OWNER_ID (Except.error ()) = is_user_admin 5 OWNER_ID (Except.ok false) ∧
      is_user_admin 5 1 (Except.error ()) = false) :=
  ⟨by decide,
    owner_true_and_query_error_swallowed 5 1 (Except.error ()) (Except.ok false) (by decide)⟩

/-! ### C10 -/

/-- C10: if the configured link-allowlist contains the empty string,
`contains_link` reports no link for any message text, because the empty
string is a substring of every (lowercased) text. -/
theorem empty_allowlist_entry_suppresses (text : Str) (allowed : List Str)
    (h : [] ∈ allowed) :
    contains_link text allowed = (false, []) := by
  unfold contains_link
  by_cases ht : text.isEmpty
  · rw [if_pos ht]
  · rw [if_neg ht]
    cases hm : linkSearchAux none text with
    | none => rfl
    | some m =>
      have ha : (allowed.any fun domain => isSub (lowerL domain) (lowerL text)) = true :=
        List.any_eq_true.mpr ⟨[], h, by simp [lowerL, isSub_nil]⟩
      simp [ha]

/-- Witness for C10: empty allowlist entry against a plain link text. -/
theorem empty_allowlist_entry_suppresses_witness :
    (([] : Str) ∈ [([] : Str)]) ∧ contains_link ("t.me/x".data) [[]] = (false, []) :=
  ⟨by decide, empty_allowlist_entry_suppresses ("t.me/x".data) [[]] (by decide)⟩

/-! ### C3 -/

/-- C3: when `LINK_REGEX` finds a match, `contains_link` suppresses it
exactly when some allowlist entry occurs as a case-insensitive substring
anywhere in the whole message text (not scoped to the matched URL span);
otherwise the match is reported. -/
theorem allowlist_suppression_is_whole_text (text : Str) (allowed : List Str) (m : Str)
    (hm : linkSearchAux none text = some m) :
    ((∃ d ∈ allowed, isSub (lowerL d) (lowerL text) = true) →
      contains_link text allowed = (false, [])) ∧
    ((∀ d ∈ allowed, isSub (lowerL d) (lowerL text) = false) →
      contains_link text allowed = (true, m)) := by
  have ht : text.isEmpty = false := by
    cases text with
    | nil =>
      rw [show linkSearchAux none ([] : Str) = none from rfl] at hm
      cases hm
    | cons c cs => rfl
  constructor
  · intro hd
    have ha : (allowed.any fun domain => isSub (lowerL domain) (lowerL text)) = true :=
      List.any_eq_true.mpr hd
    simp [contains_link, ht, hm, ha]
  · intro hd
    have ha : (allowed.any fun domain => isSub (lowerL domain) (lowerL text)) = false := by
      cases hq : allowed.any fun domain => isSub (lowerL domain) (lowerL text) with
      | false => rfl
      | true =>
        obtain ⟨d, hdm, hds⟩ := List.any_eq_true.mp hq
        rw [hd d hdm] at hds
        cases hds
    simp [contains_link, ht, hm, ha]

/-- Witness for C3: the matched link is the scheme of `https://evil.com`,
while the allowlist entry `good.org` occurs elsewhere in the text and
still suppresses the report. -/
theorem allowlist_suppression_is_whole_text_witness :
    (linkSearchAux none ("https://evil.com and good.org".data) = some ("https://".data)) ∧
    (((∃ d ∈ ["good.org".data], isSub (lowerL d)
          (lowerL ("https://evil.com and good.org".data)) = true) →
        contains_link ("https://evil.com and good.org".data) ["good.org".data] = (false, [])) ∧
      ((∀ d ∈ ["good.org".data], isSub (lowerL d)
          (lowerL ("https://evil.com and good.org".data)) = false) →
        contains_link ("https://evil.com and good.org".data) ["good.org".data] =
          (true, "https://".data))) :=
  ⟨by decide,
    allowlist_suppression_is_whole_text ("https://evil.com and good.org".data)
      ["good.org".data] ("https://".data) (by decide)⟩

/-! ### C2 -/

/-- C2: when the extracted text triggers the banned-word matcher and link
protection also finds an unsuppressed link, `mod_message` selects the
word-category action and duration and reports the banned-word reason, not
the link reason. -/
theorem word_priority_over_link (chatType : Str) (senderIsAdmin : Bool) (s : SettingsVal)
    (text caption : Option Str)
    (h1 : chatType = "group".data ∨ chatType = "supergroup".data)
    (h2 : s.enabled = true)
    (h3 : s.mode = "admins".data → senderIsAdmin = false)
    (h4 : (contains_banned (textOf text caption) (compile_patterns s.banned_words)).1 = true)
    (h5 : s.link_protection = true)
    (h6 : (contains_link (textOf text caption) s.allowed_links).1 = true) :
    mod_decide chatType senderIsAdmin s text caption =
      Decision.act s.action_words s.mute_seconds_words ("запрещённое слово".data) := by
  have hg : (chatType == "group".data || chatType == "supergroup".data) = true := by
    rcases h1 with h | h <;> simp [h]
  have hmode : (s.mode == "admins".data && senderIsAdmin) = false := by
    cases hq : s.mode == "admins".data with
    | false => rfl
    | true => rw [h3 (by simpa using hq)]; rfl
  simp [mod_decide, hg, h2, hmode, h4]

/-- Witness for C2: a group message holding both the banned word `ban` and
the link `t.me/x`, with distinct word/link actions configured. -/
theorem word_priority_over_link_witness :
    ((("group".data : Str) = "group".data ∨ ("group".data : Str) = "supergroup".data) ∧
      sC2.enabled = true ∧
      (sC2.mode = "admins".data → false = false) ∧
      (contains_banned (textOf (some ("ban t.me/x".data)) none)
        (compile_patterns sC2.banned_words)).1 = true ∧
      sC2.link_protection = true ∧
      (contains_link (textOf (some ("ban t.me/x".data)) none) sC2.allowed_links).1 = true) ∧
    mod_decide ("group".data) false sC2 (some ("ban t.me/x".data)) none =
      Decision.act sC2.action_words sC2.mute_seconds_words ("запрещённое слово".data) :=
  ⟨⟨Or.inl rfl, by decide, fun _ => rfl, by decide, by decide, by decide⟩,
    word_priority_over_link ("group".data) false sC2 (some ("ban t.me/x".data)) none
      (Or.inl rfl) (by decide) (fun _ => rfl) (by decide) (by decide) (by decide)⟩

/-! ### C4 -/

theorem lookupStore_append_self (st : List (Str × SettingsRef)) (cid : Str) (r : SettingsRef)
    (h : lookupStore st cid = none) :
    lookupStore (st ++ [(cid, r)]) cid = some r := by
  induction st with
  | nil => simp [lookupStore]
  | cons e rest ih =>
    obtain ⟨k, v⟩ := e
    cases hk : k == cid with
    | true => rw [lookupStore, if_pos hk] at h; cases h
    | false =>
      rw [lookupStore, if_neg (by simp [hk])] at h
      rw [List.cons_append, lookupStore, if_neg (by simp [hk])]
      exact ih h

/-- C4: on a chat with no entry, `ensure_chat_settings` inserts the default
settings (enabled, admins mode, empty word list and allowlist, mute with
600 seconds for both categories) and persists the whole store via
`save_data` before returning; on a chat with an entry, the entry is
returned and the state — file included — is untouched.  The hypothesis
`htmpl` says the `DEFAULTS` template still dereferences to its initial
value, which holds throughout this program because no implemented handler
mutates the template's list objects. -/
theorem ensure_chat_settings_defaults (w : World) (cid : Str)
    (htmpl : deref w.heap DEFAULTS = defaultVal) :
    (lookupStore w.store cid = none →
      ensure_chat_settings w cid =
        ({ heap := w.heap, store := w.store ++ [(cid, DEFAULTS)],
            file := some (serialize w.heap (w.store ++ [(cid, DEFAULTS)])) }, DEFAULTS) ∧
      lookupStore (ensure_chat_settings w cid).1.store cid = some DEFAULTS ∧
      deref (ensure_chat_settings w cid).1.heap (ensure_chat_settings w cid).2 = defaultVal) ∧
    (∀ r, lookupStore w.store cid = some r → ensure_chat_settings w cid = (w, r)) := by
  constructor
  · intro hnone
    have he : ensure_chat_settings w cid =
        ({ heap := w.heap, store := w.store ++ [(cid, DEFAULTS)],
            file := some (serialize w.heap (w.store ++ [(cid, DEFAULTS)])) }, DEFAULTS) := by
      unfold ensure_chat_settings
      rw [hnone]
      rfl
    refine ⟨he, ?_, ?_⟩
    · rw [he]
      exact lookupStore_append_self w.store cid DEFAULTS hnone
    · rw [he]
      exact htmpl
  · intro r hr
    unfold ensure_chat_settings
    rw [hr]

/-- Witness for C4: the very first reference to chat `c`. -/
theorem ensure_chat_settings_defaults_witness :
    (deref world0.heap DEFAULTS = defaultVal ∧ lookupStore world0.store ("c".data) = none) ∧
    (ensure_chat_settings world0 ("c".data) =
        ({ heap := world0.heap, store := world0.store ++ [("c".data, DEFAULTS)],
            file := some (serialize world0.heap (world0.store ++ [("c".data, DEFAULTS)])) },
          DEFAULTS) ∧
      lookupStore (ensure_chat_settings world0 ("c".data)).1.store ("c".data) = some DEFAULTS ∧
      deref (ensure_chat_settings world0 ("c".data)).1.heap
        (ensure_chat_settings world0 ("c".data)).2 = defaultVal) :=
  ⟨⟨by decide, rfl⟩,
    (ensure_chat_settings_defaults world0 ("c".data) (by decide)).1 rfl⟩

/-! ### C5 -/

/-- C5 evaluation: `DEFAULTS.copy()` is a shallow dict copy, so the list
objects are shared.  Creating chats `1` and `2` and then appending `spam`
in place to chat 1's banned-word list also changes chat 2's list and the
`DEFAULTS` template — refuting the claim that per-chat defaults are
independent copies.  The first conjunct shows chat 2's list was empty
before the append. -/
theorem shallow_copy_shares_default_lists :
    (deref (ensure_chat_settings (ensure_chat_settings world0 ("1".data)).1 ("2".data)).1.heap
        (ensure_chat_settings (ensure_chat_settings world0 ("1".data)).1 ("2".data)).2).banned_words
      = [] ∧
    (deref
        (heapAppendStr
          (ensure_chat_settings (ensure_chat_settings world0 ("1".data)).1 ("2".data)).1.heap
          (ensure_chat_settings world0 ("1".data)).2.banned_words ("spam".data))
        (ensure_chat_settings (ensure_chat_settings world0 ("1".data)).1 ("2".data)).2).banned_words
      = ["spam".data] ∧
    (deref
        (heapAppendStr
          (ensure_chat_settings (ensure_chat_settings world0 ("1".data)).1 ("2".data)).1.heap
          (ensure_chat_settings world0 ("1".data)).2.banned_words ("spam".data))
        DEFAULTS).banned_words
      = ["spam".data] := by
  refine ⟨rfl, rfl, rfl⟩

/-! ### C6 -/

/-- C6 counterexample: a non-owner, non-bot-admin user invokes `/admin` in
a chat with no prior entry.  The invocation is rejected, yet a default
`ChatSettings` entry is created and the store is persisted, because
`is_bot_admin` runs `ensure_chat_settings` before the permission test —
refuting "no ChatSettings entry is created, mutated, or persisted". -/
theorem panel_rejection_still_inserts_defaults :
    (show_admin_panel world0 ("c".data) 1).2 = PanelReply.rejected ∧
    lookupStore (show_admin_panel world0 ("c".data) 1).1.store ("c".data) = some DEFAULTS ∧
    (show_admin_panel world0 ("c".data) 1).1.file =
      some (serialize world0.heap [("c".data, DEFAULTS)]) := by
  refine ⟨by decide, by decide, by decide⟩

/-- C6 amended: a user who is neither the owner nor in the chat's bot-admin
list is rejected, and for a chat that already has a settings entry the
state — store, heap and persisted file — is completely unchanged.  (For a
previously unseen chat the rejected invocation still lazily inserts and
persists the default entry, as the counterexample shows.) -/
theorem panel_rejected_unchanged_for_known_chat (w : World) (cid : Str) (uid : Int)
    (r : SettingsRef) (hr : lookupStore w.store cid = some r)
    (howner : uid ≠ OWNER_ID)
    (hadm : (w.heap.intMem r.bot_admins).contains uid = false) :
    show_admin_panel w cid uid = (w, PanelReply.rejected) := by
  have he : ensure_chat_settings w cid = (w, r) := by
    unfold ensure_chat_settings
    rw [hr]
  have hb : (uid == OWNER_ID) = false := by simp [howner]
  have hmem : uid ∉ w.heap.intMem r.bot_admins := by simpa using hadm
  unfold show_admin_panel is_bot_admin
  rw [he]
  simp [hb, hmem]

/-- Witness for C6's amended statement: a known chat with default settings
and an outsider user. -/
theorem panel_rejected_unchanged_for_known_chat_witness :
    (lookupStore worldC.store ("c".data) = some DEFAULTS ∧ (1 : Int) ≠ OWNER_ID ∧
      (worldC.heap.intMem DEFAULTS.bot_admins).contains 1 = false) ∧
    show_admin_panel worldC ("c".data) 1 = (worldC, PanelReply.rejected) :=
  ⟨⟨by decide, by decide, by decide⟩,
    panel_rejected_unchanged_for_known_chat worldC ("c".data) 1 DEFAULTS (by decide)
      (by decide) (by decide)⟩

/-! ### C1 machinery: characterizing the boundary-pattern search -/

theorem lastOr_nil (prev : Option Char) : lastOr prev [] = prev := rfl

theorem lastOr_cons (prev : Option Char) (a : Char) (l : Str) :
    lastOr prev (a :: l) = lastOr (some a) l := rfl

theorem lastOr_ne_nil : ∀ (l : Str) (prev : Option Char), l ≠ [] →
    lastOr prev l = l.getLast? := by
  intro l
  induction l with
  | nil => intro prev h; cases h rfl
  | cons a bs ih =>
    intro prev _
    cases bs with
    | nil => rfl
    | cons b bs' =>
      rw [lastOr_cons, ih (some a) (by simp), List.getLast?_cons_cons]

theorem lastOr_none (pre : Str) : lastOr none pre = pre.getLast? := by
  cases pre with
  | nil => rfl
  | cons a bs => exact lastOr_ne_nil (a :: bs) none (by simp)

theorem patSearchAux_isSome_of_split (p : BPattern) :
    ∀ (pre : Str) (prev : Option Char) (rest : Str),
      (matchHere p (lastOr prev pre) rest).isSome = true →
      (patSearchAux p prev (pre ++ rest)).isSome = true := by
  intro pre
  induction pre with
  | nil =>
    intro prev rest h
    rw [lastOr_nil] at h
    cases rest with
    | nil => simpa [patSearchAux] using h
    | cons c cs =>
      rw [List.nil_append, patSearchAux]
      cases hm : matchHere p prev (c :: cs) with
      | some m => rfl
      | none => rw [hm] at h; simp at h
  | cons a pre' ih =>
    intro prev rest h
    rw [lastOr_cons] at h
    rw [List.cons_append, patSearchAux]
    cases hm : matchHere p prev (a :: (pre' ++ rest)) with
    | some m => rfl
    | none => exact ih (some a) rest h

theorem patSearchAux_some_split (p : BPattern) :
    ∀ (t : Str) (prev : Option Char) (m : Str), patSearchAux p prev t = some m →
      ∃ pre rest, t = pre ++ rest ∧ matchHere p (lastOr prev pre) rest = some m := by
  intro t
  induction t with
  | nil =>
    intro prev m h
    exact ⟨[], [], rfl, by simpa [patSearchAux] using h⟩
  | cons c cs ih =>
    intro prev m h
    rw [patSearchAux] at h
    cases hm : matchHere p prev (c :: cs) with
    | some m' =>
      rw [hm] at h
      refine ⟨[], c :: cs, rfl, ?_⟩
      rw [lastOr_nil, hm]
      exact h
    | none =>
      rw [hm] at h
      obtain ⟨pre', rest, happ, hmh⟩ := ih (some c) m h
      exact ⟨c :: pre', rest, by rw [List.cons_append, happ], by rwa [lastOr_cons]⟩

theorem ciPref_of_lowerL : ∀ (w mid post : Str), lowerL mid = lowerL w →
    ciPref w (mid ++ post) = true := by
  intro w
  induction w with
  | nil => intro mid post _; rfl
  | cons a ws ih =>
    intro mid post hl
    cases mid with
    | nil => simp [lowerL] at hl
    | cons b ms =>
      simp only [lowerL, List.map_cons, List.cons.injEq] at hl
      obtain ⟨h1, h2⟩ := hl
      rw [List.cons_append, ciPref, h1]
      simp [ih ms post h2]

theorem ciPref_take_lowerL : ∀ (w t : Str), ciPref w t = true →
    lowerL (t.take w.length) = lowerL w ∧ w.length ≤ t.length := by
  intro w
  induction w with
  | nil => intro t _; exact ⟨rfl, Nat.zero_le _⟩
  | cons a ws ih =>
    intro t h
    cases t with
    | nil => cases h
    | cons b ts =>
      rw [ciPref, Bool.and_eq_true] at h
      obtain ⟨h1, h2⟩ := h
      obtain ⟨ht, hlen⟩ := ih ts h2
      have hab : Char.toLower a = Char.toLower b := beq_iff_eq.mp h1
      constructor
      · simp only [List.length_cons, List.take_succ_cons, lowerL, List.map_cons]
        simp only [lowerL] at ht
        rw [ht, hab]
      · simpa using Nat.succ_le_succ hlen

theorem wordChars_of_lowerL : ∀ (mid w : Str), lowerL mid = lowerL w →
    (∀ c ∈ w, isWordChar c = true) → ∀ c ∈ mid, isWordChar c = true := by
  intro mid
  induction mid with
  | nil => intro w _ _ c hc; cases hc
  | cons b ms ih =>
    intro w hl hw c hc
    cases w with
    | nil => simp [lowerL] at hl
    | cons a ws =>
      simp only [lowerL, List.map_cons, List.cons.injEq] at hl
      obtain ⟨h1, h2⟩ := hl
      rcases List.mem_cons.mp hc with rfl | hc'
      · rw [← isWordChar_toLower c, h1, isWordChar_toLower a]
        exact hw a (List.mem_cons_self a ws)
      · exact ih ws h2 (fun d hd => hw d (List.mem_cons_of_mem a hd)) c hc'

theorem matchHere_boundary_eq (w : Str) (prev : Option Char) (t : Str) :
    matchHere ⟨w, true⟩ prev t =
      if ciPref w t = true then
        if (optWord prev != optWord t.head?) &&
            (optWord (t.take w.length).getLast? != optWord (t.drop w.length).head?) then
          some (t.take w.length)
        else none
      else none := rfl

theorem matchHere_boundary_some (w : Str) (hne : w ≠ [])
    (hwc : ∀ c ∈ w, isWordChar c = true) (prev : Option Char) (rest m : Str)
    (h : matchHere ⟨w, true⟩ prev rest = some m) :
    ∃ mid post, rest = mid ++ post ∧ m = mid ∧ lowerL mid = lowerL w ∧
      optWord prev = false ∧ optWord post.head? = false := by
  rw [matchHere_boundary_eq] at h
  by_cases hc : ciPref w rest = true
  case neg => rw [if_neg hc] at h; cases h
  rw [if_pos hc] at h
  by_cases hb : ((optWord prev != optWord rest.head?) &&
      (optWord (rest.take w.length).getLast? !=
        optWord (rest.drop w.length).head?)) = true
  case neg => rw [if_neg hb] at h; cases h
  rw [if_pos hb] at h
  rw [Bool.and_eq_true] at hb
  obtain ⟨hbx, hby⟩ := hb
  obtain ⟨hl, hlen⟩ := ciPref_take_lowerL w rest hc
  have hm : m = rest.take w.length := (Option.some.injEq _ _ ▸ h).symm
  have hmidne : rest.take w.length ≠ [] := by
    intro hz
    have hz' := congrArg List.length hz
    rw [List.length_take] at hz'
    simp only [List.length_nil] at hz'
    have hwpos := List.length_pos.mpr hne
    omega
  have hwords := wordChars_of_lowerL (rest.take w.length) w hl hwc
  refine ⟨rest.take w.length, rest.drop w.length, (List.take_append_drop w.length rest).symm,
    hm, hl, ?_, ?_⟩
  · -- the start boundary forces a non-word (or absent) previous character
    have hhead : optWord rest.head? = true := by
      cases hr : rest with
      | nil =>
        rw [hr] at hmidne
        simp at hmidne
      | cons x xs =>
        have hx : x ∈ rest.take w.length := by
          cases hn : w.length with
          | zero => rw [hn] at hmidne; simp at hmidne
          | succ k =>
            rw [hr, List.take_succ_cons]
            exact List.mem_cons_self x _
        simp only [List.head?_cons, optWord]
        exact hwords x hx
    rw [hhead] at hbx
    cases hp : optWord prev with
    | false => rfl
    | true => rw [hp] at hbx; cases hbx
  · -- the end boundary forces a non-word (or absent) following character
    have hlast : optWord (rest.take w.length).getLast? = true := by
      rw [List.getLast?_eq_getLast _ hmidne]
      exact hwords _ (List.getLast_mem hmidne)
    rw [hlast] at hby
    cases hp : optWord (rest.drop w.length).head? with
    | false => rfl
    | true => rw [hp] at hby; cases hby

theorem matchHere_boundary_of (w : Str) (hne : w ≠ [])
    (hwc : ∀ c ∈ w, isWordChar c = true) (prev : Option Char) (mid post : Str)
    (hl : lowerL mid = lowerL w) (hp : optWord prev = false)
    (hq : optWord post.head? = false) :
    matchHere ⟨w, true⟩ prev (mid ++ post) = some mid := by
  have hlen : mid.length = w.length := by
    have hmap := congrArg List.length hl
    simpa [lowerL] using hmap
  have hmidne : mid ≠ [] := by
    intro hz
    apply hne
    rw [hz] at hlen
    exact (List.length_eq_zero.mp hlen.symm)
  have hwords := wordChars_of_lowerL mid w hl hwc
  have htake : (mid ++ post).take w.length = mid := by
    rw [← hlen]
    exact List.take_left mid post
  have hdrop : (mid ++ post).drop w.length = post := by
    rw [← hlen]
    exact List.drop_left mid post
  have hhead : optWord (mid ++ post).head? = true := by
    cases hm : mid with
    | nil => cases hmidne hm
    | cons x xs =>
      simp only [List.cons_append, List.head?_cons, optWord]
      exact hwords x (hm ▸ List.mem_cons_self x xs)
  have hlast : optWord mid.getLast? = true := by
    rw [List.getLast?_eq_getLast _ hmidne]
    exact hwords _ (List.getLast_mem hmidne)
  rw [matchHere_boundary_eq, if_pos (ciPref_of_lowerL w mid post hl)]
  rw [htake, hdrop, hhead, hp, hlast, hq]
  rfl

theorem contains_banned_single_iff (p : BPattern) (t : Str) (ht : t.isEmpty = false) :
    (contains_banned t [p]).1 = true ↔ (patSearchAux p none t).isSome = true := by
  cases hs : patSearchAux p none t with
  | some m => simp [contains_banned, firstHit, ht, hs]
  | none => simp [contains_banned, firstHit, ht, hs]

theorem compile_single (w : Str) (hne : w ≠ []) (hwc : ∀ c ∈ w, isWordChar c = true) :
    compile_patterns [w] = [⟨w, true⟩] := by
  have hstrip : pyStrip w = w :=
    pyStrip_eq_self w (fun c hc => wordChar_not_whitespace c (hwc c hc))
  have hmem : ' ' ∉ w := fun hmem => absurd (hwc ' ' hmem) (by decide)
  simp [compile_patterns, List.filterMap_cons, hstrip, hne, hmem]

/-! ### C1 -/

/-- C1: for a banned word that forms a single token (nonempty, made of word
characters — hence free of internal whitespace), the compiled matcher hits
a text exactly when the text contains a case-insensitive copy of that word
delimited on both sides by a non-word character or a text end.  Thus a
standalone-token occurrence matches, and an occurrence embedded in a
longer token (configured word `ban` inside text `urban`) does not. -/
theorem banned_word_matches_standalone_tokens (w t : Str)
    (hw : w ≠ [] ∧ ∀ c ∈ w, isWordChar c = true) :
    (contains_banned t (compile_patterns [w])).1 = true ↔
      ∃ pre mid post, t = pre ++ mid ++ post ∧ lowerL mid = lowerL w ∧
        optWord pre.getLast? = false ∧ optWord post.head? = false := by
  obtain ⟨hne, hwc⟩ := hw
  rw [compile_single w hne hwc]
  cases ht : t.isEmpty with
  | true =>
    have ht' : t = [] := by
      cases t with
      | nil => rfl
      | cons a as => simp at ht
    subst ht'
    constructor
    · intro h
      exact absurd h (by simp [contains_banned])
    · rintro ⟨pre, mid, post, happ, hl, -, -⟩
      obtain ⟨h1, h3⟩ := List.append_eq_nil.mp happ.symm
      obtain ⟨hpre0, hmid0⟩ := List.append_eq_nil.mp h1
      rw [hmid0] at hl
      have hw0 : w = [] := by
        simpa [lowerL, eq_comm, List.map_eq_nil_iff] using hl
      exact (hne hw0).elim
  | false =>
    rw [contains_banned_single_iff _ t ht]
    constructor
    · intro h
      obtain ⟨m, hm⟩ := Option.isSome_iff_exists.mp h
      obtain ⟨pre, rest, happ, hmh⟩ := patSearchAux_some_split _ t none m hm
      obtain ⟨mid, post, hrest, hmm, hl, hprev, hpost⟩ :=
        matchHere_boundary_some w hne hwc _ rest m hmh
      refine ⟨pre, mid, post, ?_, hl, ?_, hpost⟩
      · rw [happ, hrest, List.append_assoc]
      · rwa [lastOr_none] at hprev
    · rintro ⟨pre, mid, post, happ, hl, hpre, hpost⟩
      have hmh := matchHere_boundary_of w hne hwc (lastOr none pre) mid post hl
        (by rwa [lastOr_none]) hpost
      have hres := patSearchAux_isSome_of_split ⟨w, true⟩ pre none (mid ++ post)
        (by rw [hmh]; rfl)
      rwa [← List.append_assoc, ← happ] at hres

/-- Witness for C1: the word `ban` against the text `a ban b`. -/
theorem banned_word_matches_standalone_tokens_witness :
    (("ban".data : Str) ≠ [] ∧ ∀ c ∈ ("ban".data : Str), isWordChar c = true) ∧
    ((contains_banned ("a ban b".data) (compile_patterns ["ban".data])).1 = true ↔
      ∃ pre mid post, ("a ban b".data : Str) = pre ++ mid ++ post ∧
        lowerL mid = lowerL ("ban".data) ∧
        optWord pre.getLast? = false ∧ optWord post.head? = false) :=
  ⟨⟨by decide, by decide⟩,
    banned_word_matches_standalone_tokens ("ban".data) ("a ban b".data)
      ⟨by decide, by decide⟩⟩

end PyMod
